import Mathlib

/-!
Verification development for the Advanced-JavaScript repository.

The repository's scripts demonstrate promise chaining, async/await with
`Promise.all`, closures (memoization, private state), and prototypal
inheritance.  The specification extracts a deferred-value / task-scheduler
core from this material.  Pure functions from the source are embedded as
Lean functions; the host-language promise machinery (deferred values,
batch scheduling, then/catch plumbing), which the repository only calls
into, is modelled from the specification and marked as such.
-/

namespace AJS

variable {ε α β κ ρ : Type}

/-- Outcome of an asynchronous unit of work: a success value or a failure
reason (`resolve` / `reject` in the source). -/
inductive Outcome (ε α : Type) where
  | success (a : α)
  | failure (e : ε)
  deriving DecidableEq

/-- State of a Deferred Value: `Pending`, `Fulfilled`, or `Rejected`. -/
inductive DState (ε α : Type) where
  | pending
  | fulfilled (a : α)
  | rejected (e : ε)
  deriving DecidableEq

/-- Modelled from the spec: a Deferred Value (single-resolution container,
§4.1); the repository uses the host language's native promises, so the
container itself is not in the source.  `diags` is the ordered list of
`DoubleSettlement` diagnostics reported to the observer hook. -/
structure Deferred (ε α : Type) where
  state : DState ε α
  diags : List (Outcome ε α)
  deriving DecidableEq

/-- Modelled from the spec: `settle` transitions `Pending` to
`Fulfilled`/`Rejected` on first call; a later call is a no-op on the state
but reports the attempted outcome as a `DoubleSettlement` diagnostic. -/
def settle (d : Deferred ε α) (o : Outcome ε α) : Deferred ε α :=
  match d.state with
  | .pending =>
      match o with
      | .success a => { d with state := .fulfilled a }
      | .failure e => { d with state := .rejected e }
  | _ => { d with diags := d.diags ++ [o] }

/-- Modelled from the spec: `.then` on a settled outcome — a fulfilled value
is fed to the handler, a rejection passes through unchanged (the handler is
skipped). -/
def thenO (o : Outcome ε α) (f : α → Outcome ε β) : Outcome ε β :=
  match o with
  | .success a => f a
  | .failure e => .failure e

/-- Modelled from the spec: `.catch` on a settled outcome — a rejection is
fed to the recovery handler, a fulfilled value passes through unchanged. -/
def catchO (o : Outcome ε α) (h : ε → Outcome ε α) : Outcome ε α :=
  match o with
  | .success a => .success a
  | .failure e => h e

/-- Modelled from the spec: a chain of `.then` steps applied left to
right, as in the source's `fetchData().then(...).then(...)`. -/
def chainThens (o : Outcome ε α) (fs : List (α → Outcome ε α)) : Outcome ε α :=
  fs.foldl thenO o

/-- From src/Promises-and-Promise-chaining-js/script.js: `fetchData` builds a
promise whose executor checks the constant flag `success = true` and either
resolves or rejects.  The 3000 ms timer only delays settlement and does not
affect the outcome, so the embedding returns the settled outcome. -/
def fetchData : Outcome String String :=
  let success := true
  if success then
    .success "✅ Data fetched successfully"
  else
    .failure "⛔ Error fetching data"

/-- From src/Promises-and-Promise-chaining-js/script.js: the first `.then`
handler logs the data and returns the string `Tech-Code_`. -/
def scriptThen1 : String → Outcome String String :=
  fun _data => .success "Tech-Code_"

/-- From src/Promises-and-Promise-chaining-js/script.js: the second `.then`
handler logs the value and returns nothing (undefined). -/
def scriptThen2 : String → Outcome String Unit :=
  fun _value => .success ()

/-- From src/Promises-and-Promise-chaining-js/script.js: the full chain
`fetchData().then(...).then(...).catch(h)`, parameterised by the catch
handler. -/
def scriptChain (h : String → Outcome String Unit) : Outcome String Unit :=
  catchO (thenO (thenO fetchData scriptThen1) scriptThen2) h

/-- Cache state of the `memoize` wrapper from src/unnamed/part_003: the
closure-captured `cache` object (an association map from argument to stored
result, newest binding first) together with a count of how many times the
wrapped producer `fn` has been invoked (the source logs
"Calculating result" on each such invocation). -/
structure MemoState (κ ρ : Type) where
  cache : List (κ × ρ)
  calls : Nat
  deriving DecidableEq

/-- Lookup in the closure cache, the `x in cache` / `cache[x]` test of the
source's `memoize`. -/
def cacheLookup [DecidableEq κ] : List (κ × ρ) → κ → Option ρ
  | [], _ => none
  | (k, v) :: rest, x => if x = k then some v else cacheLookup rest x

/-- From src/unnamed/part_003: one call of the wrapper returned by
`memoize(fn)`.  On a cache hit the stored result is returned and nothing
changes; on a miss `fn` is invoked once, the result is stored under `x`
and returned. -/
def memoCall [DecidableEq κ] (fn : κ → ρ) (x : κ) (s : MemoState κ ρ) :
    ρ × MemoState κ ρ :=
  match cacheLookup s.cache x with
  | some r => (r, s)
  | none =>
      let r := fn x
      (r, { cache := (x, r) :: s.cache, calls := s.calls + 1 })

/-- From src/unnamed/part_003: the function passed to `memoize` in the
source example, `x * x`. -/
def square (x : Int) : Int := x * x

/-- The closure cache is consistent with the pure producer `fn`: every
stored binding is the producer's value at its key. -/
def CacheConsistent [DecidableEq κ] (fn : κ → ρ) (s : MemoState κ ρ) : Prop :=
  ∀ k v, cacheLookup s.cache k = some v → v = fn k

/-- From src/unnamed/part_003: one `BankAccount` closure instance; `balance`
is the closure-private variable. -/
structure BankAccount where
  balance : Int
  deriving DecidableEq

/-- From src/unnamed/part_003: `deposit` unconditionally adds the amount and
logs the new balance. -/
def BankAccount.deposit (acc : BankAccount) (amount : Int) :
    BankAccount × String :=
  ({ balance := acc.balance + amount },
    "Deposited: " ++ toString amount ++ ", New Balance: " ++
      toString (acc.balance + amount))

/-- From src/unnamed/part_003: `withdraw` subtracts the amount when the
balance covers it and otherwise leaves the balance unchanged, logging
"Insufficient funds". -/
def BankAccount.withdraw (acc : BankAccount) (amount : Int) :
    BankAccount × String :=
  if acc.balance ≥ amount then
    ({ balance := acc.balance - amount },
      "Withdrew: " ++ toString amount ++ ", New Balance: " ++
        toString (acc.balance - amount))
  else
    (acc, "Insufficient funds")

/-- From src/unnamed/part_003: `getBalance` returns the private balance. -/
def BankAccount.getBalance (acc : BankAccount) : Int := acc.balance

/-- A method call on a `BankAccount` instance. -/
inductive AccountOp where
  | deposit (amount : Int)
  | withdraw (amount : Int)
  deriving DecidableEq

/-- The amount carried by an account operation. -/
def AccountOp.amount : AccountOp → Int
  | .deposit a => a
  | .withdraw a => a

/-- Apply one method call to the account (discarding the log line). -/
def applyOp (acc : BankAccount) : AccountOp → BankAccount
  | .deposit a => (acc.deposit a).1
  | .withdraw a => (acc.withdraw a).1

/-- Run a sequence of method calls against the account. -/
def applyOps (acc : BankAccount) (ops : List AccountOp) : BankAccount :=
  ops.foldl applyOp acc

/-- The sub-sequence of operations that actually take effect during a run:
every deposit applies; a withdrawal applies only when the balance at that
point covers it. -/
def appliedOps (acc : BankAccount) : List AccountOp → List AccountOp
  | [] => []
  | .deposit a :: rest => .deposit a :: appliedOps (applyOp acc (.deposit a)) rest
  | .withdraw a :: rest =>
      if acc.balance ≥ a then
        .withdraw a :: appliedOps (applyOp acc (.withdraw a)) rest
      else
        appliedOps acc rest

/-- Signed contribution of an applied operation to the balance. -/
def signedAmount : AccountOp → Int
  | .deposit a => a
  | .withdraw a => -a

/-- A settlement event delivered to a batch: member `idx` settled with
outcome `out`.  The scheduler processes settlement events in the order the
members settle. -/
structure Ev (ε α : Type) where
  idx : Nat
  out : Outcome ε α
  deriving DecidableEq

/-- Outcome of a batch in `All` mode: the positional list of member values,
or a `BatchAggregateFailure` referencing the failing member and its
reason. -/
inductive BatchOutcome (ε α : Type) where
  | success (vs : List α)
  | aggFailure (idx : Nat) (reason : ε)
  deriving DecidableEq

/-- Modelled from the spec: state of an `All`-mode batch — per-member
result slots in registration order plus the batch outcome once settled. -/
structure AllState (ε α : Type) where
  results : List (Option α)
  outcome : Option (BatchOutcome ε α)
  deriving DecidableEq

/-- Modelled from the spec: `All`-mode batch reaction to one settlement
event (the `Promise.all` behaviour described in the source's readme).  A
settled batch ignores further events; a rejection fails the batch fast with
an aggregate failure referencing that member's reason; a fulfilment is
stored positionally, and when every slot is filled the batch completes with
the values in registration order. -/
def stepAll (s : AllState ε α) (e : Ev ε α) : AllState ε α :=
  match s.outcome with
  | some _ => s
  | none =>
      match e.out with
      | .failure r => { s with outcome := some (.aggFailure e.idx r) }
      | .success v =>
          if (s.results.set e.idx (some v)).all (fun o => o.isSome) then
            AllState.mk (s.results.set e.idx (some v))
              (some (.success ((s.results.set e.idx (some v)).filterMap id)))
          else
            AllState.mk (s.results.set e.idx (some v)) none

/-- Modelled from the spec: run an `All`-mode batch of `n` members over a
settlement-ordered event list, starting from all slots empty. -/
def runAll (n : Nat) (events : List (Ev ε α)) : AllState ε α :=
  events.foldl stepAll (AllState.mk (List.replicate n none) none)

/-- Modelled from the spec: state of a `Race`-mode batch — the batch
outcome once settled, and the members that have received a cancellation
request. -/
structure RaceState (ε α : Type) where
  outcome : Option (Outcome ε α)
  cancelled : List Nat
  deriving DecidableEq

/-- Modelled from the spec: `Race`-mode batch reaction to one settlement
event (the `Promise.race` behaviour described in the source's readme).  The
first settlement, success or failure, becomes the batch outcome and every
other member receives a cancellation request; later events are ignored. -/
def raceStep (n : Nat) (s : RaceState ε α) (e : Ev ε α) : RaceState ε α :=
  match s.outcome with
  | some _ => s
  | none =>
      RaceState.mk (some e.out) ((List.range n).filter (fun j => j ≠ e.idx))

/-- Modelled from the spec: run a `Race`-mode batch of `n` members over a
settlement-ordered event list. -/
def runRace (n : Nat) (events : List (Ev ε α)) : RaceState ε α :=
  events.foldl (raceStep n) (RaceState.mk none [])

/-- Modelled from the spec: a task awaiting a sequence of settled Deferred
Values one after another (the sequential `await` pattern); each fulfilment
resumes the task with its value in order, and a rejection propagates. -/
def awaitSeq : List (Outcome ε α) → Outcome ε (List α)
  | [] => .success []
  | o :: os =>
      match o with
      | .failure e => .failure e
      | .success a =>
          match awaitSeq os with
          | .failure e => .failure e
          | .success as => .success (a :: as)

/-- From src/Aync-await-and-Promises-all/aync-await.js: `fetchPostData`
resolves with "Post Data fetched" after 2000 ms (delay, value). -/
def fetchPostData : Nat × String := (2000, "Post Data fetched")

/-- From src/Aync-await-and-Promises-all/aync-await.js: `fetchCommentData`
resolves with "Comment data fetched." after 3000 ms (delay, value). -/
def fetchCommentData : Nat × String := (3000, "Comment data fetched.")

/-- From src/Aync-await-and-Promises-all/aync-await.js: the settlement
events of `Promise.all([fetchPostData(), fetchCommentData()])` inside
`getBlogData`, ordered by delay (the post promise settles first). -/
def blogEvents : List (Ev String String) :=
  [Ev.mk 0 (.success fetchPostData.2), Ev.mk 1 (.success fetchCommentData.2)]

/-- A producer used as a concrete memoization instance in witnesses. -/
def constOk : String → Outcome String String :=
  fun _ => .success "ok"

/-- After any `memoCall`, the cache holds the returned result under the
queried key. -/
theorem memoCall_lookup [DecidableEq κ] (fn : κ → ρ) (x : κ) (s : MemoState κ ρ) :
    cacheLookup (memoCall fn x s).2.cache x = some (memoCall fn x s).1 := by
  unfold memoCall
  cases h : cacheLookup s.cache x with
  | some r => simpa using h
  | none => simp [cacheLookup]

/-- `thenO` never modifies a rejection. -/
theorem thenO_failure (e : ε) (f : α → Outcome ε β) :
    thenO (.failure e) f = .failure e := rfl

/-- A rejection passes through any chain of `.then` steps unchanged. -/
theorem chainThens_failure (e : ε) (fs : List (α → Outcome ε α)) :
    chainThens (.failure e) fs = .failure e := by
  induction fs with
  | nil => rfl
  | cons f fs ih =>
      simpa [chainThens, thenO] using ih

/-- C1: settling an already-pending Deferred Value twice produces exactly one
state change — the first settlement wins, the state moves off `Pending`
exactly once and the second attempt leaves state and result untouched — and
the second attempt is reported as a `DoubleSettlement` diagnostic rather
than silently dropped. -/
theorem settle_twice_first_wins (ds : List (Outcome ε α)) (o1 o2 : Outcome ε α) :
    (settle (Deferred.mk .pending ds) o1).state ≠ .pending ∧
    (settle (Deferred.mk .pending ds) o1).diags = ds ∧
    settle (settle (Deferred.mk .pending ds) o1) o2 =
      Deferred.mk (settle (Deferred.mk .pending ds) o1).state
        ((settle (Deferred.mk .pending ds) o1).diags ++ [o2]) := by
  cases o1 <;> cases o2 <;> simp [settle]

/-- C6: a failure propagates upward unchanged — a rejected outcome passes
through every `.then` step of an await/then chain with the original reason
unmodified (no wrapping), and only an explicit `.catch` handler receives and
recovers it; the chain never swallows the failure. -/
theorem failure_propagates_unchanged (e : ε) (fs : List (α → Outcome ε α))
    (h : ε → Outcome ε α) :
    chainThens (.failure e) fs = .failure e ∧
    catchO (.failure e) h = h e := by
  exact ⟨chainThens_failure e fs, rfl⟩

/-- C8: `fetchData` always fulfills with "✅ Data fetched successfully"
(the `success` flag is the constant `true`, so the reject branch is
unreachable), and the attached `.catch` handler is unreachable: the chain's
outcome does not depend on the catch handler at all, and even a handler that
re-fails is never invoked. -/
theorem fetchData_always_fulfilled :
    fetchData = .success "✅ Data fetched successfully" ∧
    (∀ h h' : String → Outcome String Unit, scriptChain h = scriptChain h') ∧
    scriptChain (fun e => .failure e) = .success () := by
  refine ⟨rfl, fun h h' => rfl, rfl⟩

/-- C2: calling the memoized wrapper twice with the same key invokes the
underlying producer at most once — the second call is a cache hit returning
the same value and leaving the state untouched, and across both calls the
producer invocation count rises by at most one. -/
theorem memo_producer_at_most_once [DecidableEq κ] (fn : κ → ρ) (x : κ)
    (s : MemoState κ ρ) :
    (memoCall fn x (memoCall fn x s).2).1 = (memoCall fn x s).1 ∧
    (memoCall fn x (memoCall fn x s).2).2 = (memoCall fn x s).2 ∧
    (memoCall fn x (memoCall fn x s).2).2.calls ≤ s.calls + 1 := by
  have hl := memoCall_lookup fn x s
  have hfirst : (memoCall fn x s).2.calls ≤ s.calls + 1 := by
    unfold memoCall
    cases h : cacheLookup s.cache x with
    | some r => exact Nat.le_succ _
    | none => exact Nat.le_refl _
  have hsnd : memoCall fn x (memoCall fn x s).2 =
      ((memoCall fn x s).1, (memoCall fn x s).2) := by
    rw [memoCall, hl]
  refine ⟨?_, ?_, ?_⟩
  · rw [hsnd]
  · rw [hsnd]
  · rw [hsnd]
    exact hfirst

/-- C7: when the cached entry for a key is a Rejected outcome, a further
lookup returns that stored failed entry unchanged without invoking the
producer again — a failed fingerprint stays failed (the source's `memoize`
never evicts). -/
theorem memo_failed_entry_stays [DecidableEq κ] (fn : κ → Outcome ε α) (x : κ)
    (s : MemoState κ (Outcome ε α)) (e : ε)
    (h : cacheLookup s.cache x = some (.failure e)) :
    memoCall fn x s = (.failure e, s) := by
  rw [memoCall, h]

/-- Witness for C7 at a concrete rejected cache entry. -/
theorem memo_failed_entry_stays_witness :
    memoCall constOk "X" (MemoState.mk [("X", Outcome.failure "boom")] 3) =
      (Outcome.failure "boom", MemoState.mk [("X", Outcome.failure "boom")] 3) :=
  memo_failed_entry_stays constOk "X"
    (MemoState.mk [("X", Outcome.failure "boom")] 3) "boom" (by decide)

/-- C9: the memoized wrapper is extensionally equal to the pure producer —
whenever the cache is consistent with `fn` (as it is initially and stays
after every call), a call with argument `x`, whether a miss or a hit,
returns exactly `fn x`, and consistency is preserved. -/
theorem memoize_extensional [DecidableEq κ] (fn : κ → ρ) (x : κ)
    (s : MemoState κ ρ) (h : CacheConsistent fn s) :
    (memoCall fn x s).1 = fn x ∧ CacheConsistent fn (memoCall fn x s).2 := by
  unfold memoCall
  cases hx : cacheLookup s.cache x with
  | some r =>
      exact ⟨h x r hx, h⟩
  | none =>
      refine ⟨rfl, ?_⟩
      intro k v hkv
      simp only [cacheLookup] at hkv
      split at hkv
      · next hk =>
          cases hkv
          rw [hk]
      · exact h k v hkv

/-- Witness for C9 at the source's `square` example on the empty cache. -/
theorem memoize_extensional_witness :
    (memoCall square 4 (MemoState.mk [] 0)).1 = square 4 ∧ square 4 = 16 :=
  ⟨(memoize_extensional square 4 (MemoState.mk [] 0)
      (by intro k v hv; simp [cacheLookup] at hv)).1,
    by decide⟩

/-- `applyOps` unfolds one step. -/
theorem applyOps_cons (acc : BankAccount) (op : AccountOp) (ops : List AccountOp) :
    applyOps acc (op :: ops) = applyOps (applyOp acc op) ops := rfl

/-- Non-negative balances are preserved by runs of non-negative operations. -/
theorem balance_applyOps_nonneg :
    ∀ (ops : List AccountOp) (acc : BankAccount), 0 ≤ acc.balance →
      (∀ op ∈ ops, 0 ≤ op.amount) → 0 ≤ (applyOps acc ops).balance := by
  intro ops
  induction ops with
  | nil =>
      intro acc h _
      simpa [applyOps] using h
  | cons op rest ih =>
      intro acc h hall
      rw [applyOps_cons]
      refine ih _ ?_ (fun o ho => hall o (List.mem_cons_of_mem _ ho))
      cases op with
      | deposit a =>
          have ha : 0 ≤ a := hall _ (List.mem_cons_self _ _)
          simp only [applyOp, BankAccount.deposit]
          omega
      | withdraw a =>
          simp only [applyOp, BankAccount.withdraw]
          split
          · next hc => simp only; omega
          · exact h

/-- The final balance is the initial balance plus the signed sum of the
operations that actually applied. -/
theorem balance_applyOps_sum :
    ∀ (ops : List AccountOp) (acc : BankAccount),
      (applyOps acc ops).balance =
        acc.balance + ((appliedOps acc ops).map signedAmount).sum := by
  intro ops
  induction ops with
  | nil => intro acc; simp [applyOps, appliedOps]
  | cons op rest ih =>
      intro acc
      cases op with
      | deposit a =>
          rw [applyOps_cons, ih]
          simp only [appliedOps, applyOp, BankAccount.deposit, signedAmount,
            List.map_cons, List.sum_cons]
          omega
      | withdraw a =>
          rw [applyOps_cons, ih]
          by_cases hc : acc.balance ≥ a
          · simp only [appliedOps, if_pos hc, applyOp, BankAccount.withdraw,
              signedAmount, List.map_cons, List.sum_cons]
            omega
          · simp only [appliedOps, if_neg hc, applyOp, BankAccount.withdraw]

/-- C10: for an account created with a non-negative initial balance and any
sequence of deposits/withdrawals with non-negative amounts, the private
balance never goes negative; an over-large withdrawal leaves the account
unchanged and reports "Insufficient funds"; and `getBalance` equals the
initial balance plus all applied deposits minus all applied withdrawals. -/
theorem bankAccount_invariant (init : Int) (ops : List AccountOp)
    (acc : BankAccount) (a : Int) (h0 : 0 ≤ init)
    (hops : ∀ op ∈ ops, 0 ≤ op.amount) (hin : acc.balance < a) :
    0 ≤ (applyOps (BankAccount.mk init) ops).balance ∧
    (applyOps (BankAccount.mk init) ops).getBalance =
      init + ((appliedOps (BankAccount.mk init) ops).map signedAmount).sum ∧
    acc.withdraw a = (acc, "Insufficient funds") := by
  have hno : ¬ acc.balance ≥ a := not_le.mpr hin
  refine ⟨balance_applyOps_nonneg ops (BankAccount.mk init) h0 hops, ?_, ?_⟩
  · simpa [BankAccount.getBalance] using balance_applyOps_sum ops (BankAccount.mk init)
  · simp [BankAccount.withdraw, hno]

/-- Witness for C10 on the source's example run (initial 100, deposit 50,
withdraw 30) and a rejected withdrawal of 200 from a balance of 100. -/
theorem bankAccount_invariant_witness :
    0 ≤ (applyOps (BankAccount.mk 100)
          [AccountOp.deposit 50, AccountOp.withdraw 30]).balance ∧
    (applyOps (BankAccount.mk 100)
        [AccountOp.deposit 50, AccountOp.withdraw 30]).getBalance =
      100 + ((appliedOps (BankAccount.mk 100)
          [AccountOp.deposit 50, AccountOp.withdraw 30]).map signedAmount).sum ∧
    (BankAccount.mk 100).withdraw 200 = (BankAccount.mk 100, "Insufficient funds") :=
  bankAccount_invariant 100 [AccountOp.deposit 50, AccountOp.withdraw 30]
    (BankAccount.mk 100) 200 (by decide) (by decide) (by decide)

/-- A settled `All`-mode batch ignores a settlement event. -/
theorem stepAll_settled (s : AllState ε α) (e : Ev ε α) (b : BatchOutcome ε α)
    (h : s.outcome = some b) : stepAll s e = s := by
  cases s with
  | mk results outcome =>
      cases outcome with
      | none => simp at h
      | some b => rfl

/-- A settled `All`-mode batch ignores every further settlement event. -/
theorem foldl_stepAll_settled (events : List (Ev ε α)) :
    ∀ (s : AllState ε α) (b : BatchOutcome ε α), s.outcome = some b →
      events.foldl stepAll s = s := by
  induction events with
  | nil => intro s b _; rfl
  | cons e rest ih =>
      intro s b h
      rw [List.foldl_cons, stepAll_settled s e b h]
      exact ih s b h

/-- A list of options that are all `some` loses nothing under
`filterMap id`. -/
theorem filterMap_id_length_of_all :
    ∀ l : List (Option α), l.all (fun o => o.isSome) = true →
      (l.filterMap id).length = l.length := by
  intro l
  induction l with
  | nil => intro _; rfl
  | cons o t ih =>
      intro h
      rw [List.all_cons, Bool.and_eq_true] at h
      cases o with
      | none => simp at h
      | some a => simp [List.filterMap_cons, ih h.2]

/-- One `All`-mode step preserves the batch invariant: the result slots
keep length `n` and a successful batch outcome has exactly `n` values. -/
theorem stepAll_inv (n : Nat) (s : AllState ε α) (e : Ev ε α)
    (h1 : s.results.length = n)
    (h2 : ∀ vs, s.outcome = some (.success vs) → vs.length = n) :
    (stepAll s e).results.length = n ∧
    ∀ vs, (stepAll s e).outcome = some (.success vs) → vs.length = n := by
  cases s with
  | mk results outcome =>
      cases outcome with
      | some b => exact ⟨h1, h2⟩
      | none =>
          cases e with
          | mk i out =>
              cases out with
              | failure r =>
                  refine ⟨h1, ?_⟩
                  intro vs hvs
                  simp [stepAll] at hvs
              | success v =>
                  simp only [stepAll]
                  split
                  · next hall =>
                      constructor
                      · simpa [List.length_set] using h1
                      · intro vs hvs
                        simp only [Option.some.injEq,
                          BatchOutcome.success.injEq] at hvs
                        rw [← hvs, filterMap_id_length_of_all _ hall,
                          List.length_set]
                        exact h1
                  · next hall =>
                      constructor
                      · simpa [List.length_set] using h1
                      · intro vs hvs
                        simp at hvs

/-- The `All`-mode batch invariant is preserved along any event list. -/
theorem foldl_stepAll_inv (n : Nat) (events : List (Ev ε α)) :
    ∀ s : AllState ε α, s.results.length = n →
      (∀ vs, s.outcome = some (.success vs) → vs.length = n) →
      (events.foldl stepAll s).results.length = n ∧
      ∀ vs, (events.foldl stepAll s).outcome = some (.success vs) →
        vs.length = n := by
  induction events with
  | nil => intro s h1 h2; exact ⟨h1, h2⟩
  | cons e rest ih =>
      intro s h1 h2
      rw [List.foldl_cons]
      obtain ⟨g1, g2⟩ := stepAll_inv n s e h1 h2
      exact ih (stepAll s e) g1 g2

/-- A successful `All`-mode batch of `n` members carries exactly `n`
values: the batch completes successfully only when every member has
completed. -/
theorem runAll_success_length (n : Nat) (events : List (Ev ε α)) (vs : List α)
    (h : (runAll n events).outcome = some (.success vs)) : vs.length = n := by
  have hinit : ((AllState.mk (List.replicate n none) none : AllState ε α)).results.length = n := by
    simp
  have := foldl_stepAll_inv n events (AllState.mk (List.replicate n none) none)
    hinit (by intro vs hvs; simp at hvs)
  exact this.2 vs h

/-- A settled `Race`-mode batch ignores every further settlement event. -/
theorem foldl_raceStep_settled (n : Nat) (events : List (Ev ε α)) :
    ∀ (s : RaceState ε α) (o : Outcome ε α), s.outcome = some o →
      events.foldl (raceStep n) s = s := by
  induction events with
  | nil => intro s o _; rfl
  | cons e rest ih =>
      intro s o h
      have hs : raceStep n s e = s := by
        cases s with
        | mk outcome cancelled =>
            cases outcome with
            | none => simp at h
            | some b => rfl
      rw [List.foldl_cons, hs]
      exact ih s o h

/-- C3: an `All`-mode batch fails fast — when a member rejects before the
others resolve (the rejection is the first settlement event), the batch
terminates with a `BatchAggregateFailure` referencing that member's reason,
and every later settlement of the remaining members (`rest`, arbitrary) is
ignored; the batch completes successfully only when every one of its `n`
members has completed. -/
theorem batch_all_fail_fast (n i : Nat) (r : ε)
    (rest events : List (Ev ε α)) (vs : List α)
    (h : (runAll n events).outcome = some (.success vs)) :
    (runAll n (Ev.mk i (.failure r) :: rest)).outcome =
      some (.aggFailure i r) ∧
    vs.length = n := by
  constructor
  · have h1 : stepAll (AllState.mk (List.replicate n none) none)
        (Ev.mk i (.failure r)) =
        (AllState.mk (List.replicate n none) (some (.aggFailure i r)) :
          AllState ε α) := rfl
    rw [runAll, List.foldl_cons, h1, foldl_stepAll_settled rest _ _ rfl]
  · exact runAll_success_length n events vs h

/-- Witness for C3: member 1 rejects first with "boom", member 0's later
fulfilment is ignored; a fully fulfilled two-member batch carries two
values. -/
theorem batch_all_fail_fast_witness :
    (runAll 2 [Ev.mk 1 (Outcome.failure "boom"),
        Ev.mk 0 (Outcome.success "late")]).outcome =
      some (BatchOutcome.aggFailure 1 "boom") ∧
    (["a", "b"] : List String).length = 2 :=
  batch_all_fail_fast 2 1 "boom" [Ev.mk 0 (Outcome.success "late")]
    [Ev.mk 0 (Outcome.success "a"), Ev.mk 1 (Outcome.success "b")]
    ["a", "b"] rfl

/-- C4: resumption values are observed in order — a two-member `All` batch
settles with the members' values positionally in registration order whether
member 0 or member 1 settles first; a task awaiting a sequence of fulfilled
Deferred Values observes exactly their settlement values in order with no
reordering; and in particular the `getBlogData` batch over
`[fetchPostData(), fetchCommentData()]` (post settles first, 2000 < 3000)
yields the values in registration order. -/
theorem await_order_preserved (v0 v1 : α) :
    (runAll 2 ([Ev.mk 0 (.success v0), Ev.mk 1 (.success v1)] :
        List (Ev ε α))).outcome = some (.success [v0, v1]) ∧
    (runAll 2 ([Ev.mk 1 (.success v1), Ev.mk 0 (.success v0)] :
        List (Ev ε α))).outcome = some (.success [v0, v1]) ∧
    (∀ vs : List α,
      awaitSeq (vs.map Outcome.success) = (Outcome.success vs : Outcome ε (List α))) ∧
    (runAll 2 blogEvents).outcome =
      some (.success [fetchPostData.2, fetchCommentData.2]) ∧
    fetchPostData.1 < fetchCommentData.1 := by
  refine ⟨rfl, rfl, ?_, rfl, by decide⟩
  intro vs
  induction vs with
  | nil => rfl
  | cons a t ih => simp [awaitSeq, ih]

/-- C5: a `Race`-mode batch settles with the outcome (value or failure) of
whichever member settles first; every other member of the `n`-member batch
receives a cancellation request, and the later settlements (`rest`,
arbitrary) play no part in the batch outcome. -/
theorem race_first_settlement_wins (n i : Nat) (o : Outcome ε α)
    (rest : List (Ev ε α)) :
    (runRace n (Ev.mk i o :: rest)).outcome = some o ∧
    (runRace n (Ev.mk i o :: rest)).cancelled =
      (List.range n).filter (fun j => j ≠ i) ∧
    ∀ j, j < n → j ≠ i → j ∈ (runRace n (Ev.mk i o :: rest)).cancelled := by
  have h1 : raceStep n (RaceState.mk none []) (Ev.mk i o) =
      RaceState.mk (some o) ((List.range n).filter (fun j => j ≠ i)) := rfl
  have hrun : runRace n (Ev.mk i o :: rest) =
      RaceState.mk (some o) ((List.range n).filter (fun j => j ≠ i)) := by
    rw [runRace, List.foldl_cons, h1]
    exact foldl_raceStep_settled n rest _ o rfl
  refine ⟨by rw [hrun], by rw [hrun], ?_⟩
  intro j hj hne
  rw [hrun]
  simp [List.mem_filter, List.mem_range, hj, hne]

/-- Witness for C5: member 1's fulfilment arrives first in a three-member
race, member 2's later rejection is ignored, and member 2 received a
cancellation request. -/
theorem race_first_settlement_wins_witness :
    (runRace 3 [Ev.mk 1 (Outcome.success "fast"),
        Ev.mk 2 (Outcome.failure "slow")]).outcome =
      some (Outcome.success "fast") ∧
    (2 : Nat) ∈ (runRace 3 [Ev.mk 1 (Outcome.success "fast"),
        Ev.mk 2 (Outcome.failure "slow")]).cancelled :=
  ⟨(race_first_settlement_wins 3 1 (Outcome.success "fast")
      [Ev.mk 2 (Outcome.failure "slow")]).1,
    (race_first_settlement_wins 3 1 (Outcome.success "fast")
      [Ev.mk 2 (Outcome.failure "slow")]).2.2 2 (by decide) (by decide)⟩

end AJS
